import Mathlib

/-!
Verification development for the evm-diff state-consistency checker.

The development shallowly embeds the two source files of the repository:
`src/types.rs` (the snapshot data model, its serde decoding rules, and the
bytecode variant type) and `src/main.rs` (the contract-state extractor and
the diff engine's two sweeps).  Addresses, 256-bit hashes and 256-bit
integers are only ever compared for equality by the program, so they are
modelled as natural numbers.
-/

deriving instance DecidableEq for Except

namespace EvmDiff

/-- Addresses (160-bit in the source); only equality on them is used. -/
abbrev Address := Nat

/-- 256-bit hashes (`B256`); only equality on them is used. -/
abbrev B256 := Nat

/-- 256-bit unsigned integers (`U256`); only equality (against zero) is used. -/
abbrev U256 := Nat

/-- The Keccak-256 hash of the empty byte string (`alloy_consensus::constants::KECCAK_EMPTY`). -/
def KECCAK_EMPTY : B256 :=
  0xc5d2460186f7233c927e7db2dcc703c0e500b653ca82273b7bfad8045d85a470

/-- The all-zero hash sentinel (`B256::ZERO`). -/
def B256_ZERO : B256 := 0

/-- EIP-7702 delegated bytecode (revm `Eip7702Bytecode`): the delegated address,
the version, and the raw designation bytes; its `raw()` accessor returns the raw
bytes unchanged. -/
structure Eip7702Bytecode where
  delegated_address : Address
  version : Nat
  raw : List Nat
deriving DecidableEq

/-- Legacy bytecode analyzed for valid jump destinations (revm
`LegacyAnalyzedBytecode`): the (possibly padded) analyzed bytecode, the length of
the original bytes, and the jump table; its `original_bytes()` accessor returns
the first `original_len` bytes of the stored bytecode. -/
structure LegacyAnalyzedBytecode where
  bytecode : List Nat
  original_len : Nat
  jump_table : List Bool
deriving DecidableEq

/-- Main bytecode structure with all variants (`src/types.rs`, `Bytecode`). -/
inductive Bytecode where
  | eip7702 (b : Eip7702Bytecode)
  | legacyAnalyzed (b : LegacyAnalyzedBytecode)
  | legacyRaw (bytes : List Nat)
deriving DecidableEq

/-- revm `LegacyAnalyzedBytecode::original_bytes`: the stored bytes truncated to
the original length. -/
def LegacyAnalyzedBytecode.original_bytes (b : LegacyAnalyzedBytecode) : List Nat :=
  b.bytecode.take b.original_len

/-- `src/types.rs`, `Bytecode::original_bytes`: the canonical bytes of each variant. -/
def Bytecode.original_bytes : Bytecode → List Nat
  | .eip7702 b => b.raw
  | .legacyAnalyzed b => b.original_bytes
  | .legacyRaw bytes => bytes

/-- revm `Bytecode::is_empty` as used by the diff engine's empty-code-hash
assertion: a bytecode is empty when its canonical byte string is empty. -/
def Bytecode.is_empty (b : Bytecode) : Bool := b.original_bytes.isEmpty

/-- Snapshot account info (`src/types.rs`, `DbAccountInfo`). -/
structure DbAccountInfo where
  balance : U256
  nonce : Nat
  code_hash : B256
deriving DecidableEq

/-- The `Default` impl for `DbAccountInfo`: zero balance, zero nonce, empty-code hash. -/
def DbAccountInfo.zero : DbAccountInfo :=
  { balance := 0, nonce := 0, code_hash := KECCAK_EMPTY }

/-- Snapshot account record (`src/types.rs`, `DbAccount`). -/
structure DbAccount where
  info : DbAccountInfo
  storage : List (U256 × U256)
deriving DecidableEq

/-- MessagePack-style values as seen by the serde-derived decoders: integer
payloads (covering `U256`, `u64` and `B256` fields), nested maps, and storage
entry arrays. -/
inductive MVal where
  | int (n : Nat)
  | map (entries : List (String × MVal))
  | arr (entries : List (Nat × Nat))

/-- Keys accepted for the `balance` field: serde rename `b` with alias `balance`. -/
def isBalanceKey (k : String) : Bool := k == "b" || k == "balance"

/-- Keys accepted for the `nonce` field: serde rename `n` with alias `nonce`. -/
def isNonceKey (k : String) : Bool := k == "n" || k == "nonce"

/-- Keys accepted for the `code_hash` field: serde rename `c` with alias `code_hash`. -/
def isCodeHashKey (k : String) : Bool := k == "c" || k == "code_hash"

/-- Keys accepted for the `info` field: serde rename `i` with alias `info`. -/
def isInfoKey (k : String) : Bool := k == "i" || k == "info"

/-- Keys accepted for the `storage` field: serde rename `s` with alias `storage`. -/
def isStorageKey (k : String) : Bool := k == "s" || k == "storage"

/-- The serde map visitor for `DbAccountInfo`: consume the entries in order,
matching each key against the field's rename or alias; a repeated field is a
decode error, a wrongly-typed value is a decode error, an unknown key is
ignored (serde's default), and every missing field takes its declared default
(`U256::ZERO`, `0`, `keccak_empty()`). -/
def decodeInfoFields :
    List (String × MVal) → Option U256 → Option Nat → Option B256 →
    Except String DbAccountInfo
  | [], b, n, c =>
    .ok { balance := b.getD 0, nonce := n.getD 0, code_hash := c.getD KECCAK_EMPTY }
  | (k, v) :: rest, b, n, c =>
    if isBalanceKey k then
      if b.isSome then .error "duplicate field balance"
      else
        match v with
        | .int x => decodeInfoFields rest (some x) n c
        | .map _ => .error "invalid type for balance"
        | .arr _ => .error "invalid type for balance"
    else if isNonceKey k then
      if n.isSome then .error "duplicate field nonce"
      else
        match v with
        | .int x => decodeInfoFields rest b (some x) c
        | .map _ => .error "invalid type for nonce"
        | .arr _ => .error "invalid type for nonce"
    else if isCodeHashKey k then
      if c.isSome then .error "duplicate field code_hash"
      else
        match v with
        | .int x => decodeInfoFields rest b n (some x)
        | .map _ => .error "invalid type for code_hash"
        | .arr _ => .error "invalid type for code_hash"
    else decodeInfoFields rest b n c

/-- Decoding a `DbAccountInfo` record from its named fields (`src/types.rs`,
serde derive on `DbAccountInfo`). -/
def decodeDbAccountInfo (l : List (String × MVal)) : Except String DbAccountInfo :=
  decodeInfoFields l none none none

/-- The serde map visitor for `DbAccount`: the `info` field (rename `i`, alias
`info`, defaulting to `DbAccountInfo::default()`) holds a nested record, the
`storage` field (rename `s`, alias `storage`, defaulting to the empty vector)
holds an array of slot pairs. -/
def decodeAccountFields :
    List (String × MVal) → Option DbAccountInfo → Option (List (U256 × U256)) →
    Except String DbAccount
  | [], i, s => .ok { info := i.getD DbAccountInfo.zero, storage := s.getD [] }
  | (k, v) :: rest, i, s =>
    if isInfoKey k then
      if i.isSome then .error "duplicate field info"
      else
        match v with
        | .map sub =>
          match decodeDbAccountInfo sub with
          | .ok info => decodeAccountFields rest (some info) s
          | .error e => .error e
        | .int _ => .error "invalid type for info"
        | .arr _ => .error "invalid type for info"
    else if isStorageKey k then
      if s.isSome then .error "duplicate field storage"
      else
        match v with
        | .arr entries => decodeAccountFields rest i (some entries)
        | .int _ => .error "invalid type for storage"
        | .map _ => .error "invalid type for storage"
    else decodeAccountFields rest i s

/-- Decoding a `DbAccount` record from its named fields (`src/types.rs`,
serde derive on `DbAccount`). -/
def decodeDbAccount (l : List (String × MVal)) : Except String DbAccount :=
  decodeAccountFields l none none

/-- Replacing each full field name of the wire format by its short rename;
other keys are untouched. -/
def shortAlias (k : String) : String :=
  if k == "balance" then "b"
  else if k == "nonce" then "n"
  else if k == "code_hash" then "c"
  else if k == "info" then "i"
  else if k == "storage" then "s"
  else k

/-- reth `Account`: a nonce, a balance, and an optional bytecode hash. -/
structure Account where
  nonce : Nat
  balance : U256
  bytecode_hash : Option B256
deriving DecidableEq

/-- reth `Account::get_bytecode_hash`: the stored hash, or `KECCAK_EMPTY` when absent. -/
def Account.get_bytecode_hash (a : Account) : B256 := a.bytecode_hash.getD KECCAK_EMPTY

/-- Insertion into a sorted unique-key association list, the model of
`BTreeMap<B256, U256>`: a later insert on an existing key replaces its value. -/
def btreeInsert : List (B256 × U256) → B256 → U256 → List (B256 × U256)
  | [], k, v => [(k, v)]
  | (k1, v1) :: rest, k, v =>
    if k < k1 then (k, v) :: (k1, v1) :: rest
    else if k = k1 then (k, v) :: rest
    else (k1, v1) :: btreeInsert rest k v

/-- Collecting a sequence of key-value pairs into a `BTreeMap`, in order. -/
def btreeOfList (l : List (B256 × U256)) : List (B256 × U256) :=
  l.foldl (fun m p => btreeInsert m p.1 p.2) []

/-- One row of the sorted duplicate-key `PlainStorageState` table: the address it
belongs to, and the storage entry's slot key and value. -/
abbrev StorageRow := Address × B256 × U256

/-- The duplicate-group scan of the storage cursor (`src/main.rs` lines 81-87):
`seek_exact` positions on the first row whose table key equals the address, the
first entry is recorded, and `next_dup` keeps advancing while the table key is
unchanged, stopping at the first row for a different address or end of table. -/
def dupGroup (table : List StorageRow) (addr : Address) : List (B256 × U256) :=
  ((table.dropWhile (fun e => e.1 != addr)).takeWhile (fun e => e.1 == addr)).map
    (fun e => (e.2.1, e.2.2))

/-- A genuine backend fault raised by a store lookup (not absence). -/
inductive QueryError where
  | fault
deriving DecidableEq

/-- The State Query interface consumed by the diff engine.  Each lookup is a pure
function of the queried key, so the bound historical view is immutable: repeated
queries for the same key agree. -/
structure StateProvider where
  basic_account : Address → Except QueryError (Option Account)
  account_code : Address → Except QueryError (Option Bytecode)
  bytecode_by_hash : B256 → Except QueryError (Option Bytecode)

/-- The read-only database provider used by the extractor: the sorted
duplicate-key storage table, plus a flag recording whether the cursor operations
(`cursor_dup_read`, `seek_exact`, `next_dup`) succeed; when the flag is false the
range scan raises a query error. -/
structure DbProvider where
  storageTable : List StorageRow
  scanOk : Bool

/-- The complete state of a contract (`src/main.rs`, `ContractState`). -/
structure ContractState where
  address : Address
  account : Account
  bytecode : Option Bytecode
  storage : List (B256 × U256)
deriving DecidableEq

/-- Extract the full state of a specific contract (`src/main.rs`,
`extract_contract_state`): a failed basic-account lookup propagates, an absent
account yields `none`, and otherwise the bytecode is looked up and the storage
map is filled from the duplicate-group scan of the sorted storage table. -/
def extract_contract_state (provider : DbProvider) (state : StateProvider)
    (contract_address : Address) : Except QueryError (Option ContractState) :=
  match state.basic_account contract_address with
  | .error e => .error e
  | .ok none => .ok none
  | .ok (some account) =>
    match state.account_code contract_address with
    | .error e => .error e
    | .ok bytecode =>
      if provider.scanOk then
        .ok (some { address := contract_address, account := account,
                    bytecode := bytecode,
                    storage := btreeOfList (dupGroup provider.storageTable contract_address) })
      else .error .fault

/-- Reasons the diff run aborts: a failed assertion, an explicit panic, or an
unwrapped query error. -/
inductive RunAbort where
  | balanceMismatch
  | nonceMismatch
  | codeHashMismatch
  | absentBalance
  | absentNonce
  | absentCodeHash
  | absentStorage
  | extractQueryError
  | extractedNone
  | accountCodeError
  | storageMismatch
  | bytecodeLookupError
  | nonEmptyCodeForEmptyHash
  | bytecodeMismatch
  | codeNotFound
deriving DecidableEq

/-- The non-aborting outcome of one account iteration: either all checks passed,
or the basic-account lookup raised a query error which was printed and skipped. -/
inductive StepNote where
  | okStep
  | queryErrorRecorded
deriving DecidableEq

/-- One iteration of the diff engine's account sweep (`src/main.rs` lines
124-172).  A `.error` models an `assert_eq!`/`panic!`/`unwrap` aborting the run;
`.ok .queryErrorRecorded` models the lenient `Err` arm that merely prints and
continues.  The snapshot storage is filtered of zero-valued entries before being
collected into the expected `BTreeMap` (the `U256`-to-`B256` key conversion is
the identity in this model). -/
def stepAccount (db : DbProvider) (state : StateProvider) (address : Address)
    (account : DbAccount) : Except RunAbort StepNote :=
  match state.basic_account address with
  | .error _ => .ok .queryErrorRecorded
  | .ok none =>
    if account.info.balance ≠ 0 then .error .absentBalance
    else if account.info.nonce ≠ 0 then .error .absentNonce
    else if account.info.code_hash ≠ KECCAK_EMPTY then .error .absentCodeHash
    else if account.storage.length ≠ 0 then .error .absentStorage
    else .ok .okStep
  | .ok (some account_in_db) =>
    if account_in_db.balance ≠ account.info.balance then .error .balanceMismatch
    else if account_in_db.nonce ≠ account.info.nonce then .error .nonceMismatch
    else if account_in_db.get_bytecode_hash ≠ account.info.code_hash then
      .error .codeHashMismatch
    else
      match extract_contract_state db state address with
      | .error _ => .error .extractQueryError
      | .ok none => .error .extractedNone
      | .ok (some contract_state) =>
        match state.account_code address with
        | .error _ => .error .accountCodeError
        | .ok _ =>
          if contract_state.storage =
              btreeOfList (account.storage.filter (fun kv => kv.2 != 0)) then
            .ok .okStep
          else .error .storageMismatch

/-- The account sweep over the snapshot's accounts sequence, in snapshot order;
an aborting step stops the run, a recorded query error lets it continue. -/
def runAccounts (db : DbProvider) (state : StateProvider) :
    List (Address × DbAccount) → Except RunAbort (List StepNote)
  | [] => .ok []
  | p :: rest =>
    match stepAccount db state p.1 p.2 with
    | .error e => .error e
    | .ok n =>
      match runAccounts db state rest with
      | .error e => .error e
      | .ok ns => .ok (n :: ns)

/-- Insertion into the association list modelling `HashMap<B256, Bytecode>`:
an insert on an existing key replaces its value. -/
def hashMapInsert : List (B256 × Bytecode) → B256 → Bytecode → List (B256 × Bytecode)
  | [], k, v => [(k, v)]
  | p :: rest, k, v =>
    if p.1 = k then (k, v) :: rest else p :: hashMapInsert rest k v

/-- `contracts.into_iter().collect::<HashMap<_, _>>()` (`src/main.rs` lines
121-123): fold the snapshot's contracts sequence into a map, later entries for
the same code hash overwriting earlier ones. -/
def hashMapCollect (l : List (B256 × Bytecode)) : List (B256 × Bytecode) :=
  l.foldl (fun m p => hashMapInsert m p.1 p.2) []

/-- The value attached to the last occurrence of a key in a sequence of pairs. -/
def lastOccurrence : List (B256 × Bytecode) → B256 → Option Bytecode
  | [], _ => none
  | p :: rest, h =>
    match lastOccurrence rest h with
    | some v => some v
    | none => if p.1 = h then some p.2 else none

/-- The non-aborting outcome of one contract iteration: either the check passed,
or the all-zero sentinel hash was absent from the store and merely noted. -/
inductive ContractNote where
  | okContract
  | notedZeroHash
deriving DecidableEq

/-- One iteration of the diff engine's bytecode sweep (`src/main.rs` lines
174-191): the empty-code hash accepts absence or empty stored bytecode; any
other hash requires stored bytecode with equal canonical bytes, except that the
all-zero sentinel tolerates absence with a printed note. -/
def stepContract (state : StateProvider) (code_hash : B256) (code : Bytecode) :
    Except RunAbort ContractNote :=
  if code_hash = KECCAK_EMPTY then
    match state.bytecode_by_hash code_hash with
    | .error _ => .error .bytecodeLookupError
    | .ok none => .ok .okContract
    | .ok (some c) =>
      if c.is_empty then .ok .okContract else .error .nonEmptyCodeForEmptyHash
  else
    match state.bytecode_by_hash code_hash with
    | .error _ => .error .bytecodeLookupError
    | .ok (some c) =>
      if c.original_bytes = code.original_bytes then .ok .okContract
      else .error .bytecodeMismatch
    | .ok none =>
      if code_hash = B256_ZERO then .ok .notedZeroHash else .error .codeNotFound

/-- The bytecode sweep over a (deduplicated) contracts sequence. -/
def runContracts (state : StateProvider) :
    List (B256 × Bytecode) → Except RunAbort (List ContractNote)
  | [] => .ok []
  | p :: rest =>
    match stepContract state p.1 p.2 with
    | .error e => .error e
    | .ok n =>
      match runContracts state rest with
      | .error e => .error e
      | .ok ns => .ok (n :: ns)

/-- The whole diff run (`src/main.rs`, `main`, lines 116-192): the account sweep
over the snapshot's accounts in order, then the bytecode sweep over the
contracts sequence deduplicated through a `HashMap`. -/
def runDiff (db : DbProvider) (state : StateProvider)
    (accounts : List (Address × DbAccount)) (contracts : List (B256 × Bytecode)) :
    Except RunAbort (List StepNote × List ContractNote) :=
  match runAccounts db state accounts with
  | .error e => .error e
  | .ok ns =>
    match runContracts state (hashMapCollect contracts) with
    | .error e => .error e
    | .ok cs => .ok (ns, cs)

/-- A state provider answering every query with the given constant results;
being a function of the key, it is an immutable view. -/
def constState (ba : Except QueryError (Option Account))
    (ac : Except QueryError (Option Bytecode))
    (bh : Except QueryError (Option Bytecode)) : StateProvider :=
  { basic_account := fun _ => ba
    account_code := fun _ => ac
    bytecode_by_hash := fun _ => bh }

/-- A concrete storage table for checks: address 10 holds three slots stored
contiguously, surrounded by one slot of address 9 and two slots of address 11. -/
def witTable : List StorageRow :=
  [(9, 5, 1), (10, 1, 5), (10, 2, 6), (10, 3, 7), (11, 8, 9), (11, 9, 9)]

/-!  Helper lemmas. -/

/-- Dropping while a predicate holds skips a prefix wholly satisfying it. -/
theorem dropWhile_append_of_forall {α : Type} (p : α → Bool) (l r : List α)
    (h : ∀ e ∈ l, p e = true) : (l ++ r).dropWhile p = r.dropWhile p := by
  induction l with
  | nil => rfl
  | cons a t ih =>
    rw [List.cons_append, List.dropWhile_cons, if_pos (h a (List.mem_cons_self a t))]
    exact ih fun e he => h e (List.mem_cons_of_mem a he)

/-- Dropping while a predicate holds consumes a list wholly satisfying it. -/
theorem dropWhile_eq_nil_of_forall {α : Type} (p : α → Bool) (l : List α)
    (h : ∀ e ∈ l, p e = true) : l.dropWhile p = [] := by
  induction l with
  | nil => rfl
  | cons a t ih =>
    rw [List.dropWhile_cons, if_pos (h a (List.mem_cons_self a t))]
    exact ih fun e he => h e (List.mem_cons_of_mem a he)

/-- Taking while a predicate holds keeps a prefix wholly satisfying it. -/
theorem takeWhile_append_of_forall {α : Type} (p : α → Bool) (l r : List α)
    (h : ∀ e ∈ l, p e = true) : (l ++ r).takeWhile p = l ++ r.takeWhile p := by
  induction l with
  | nil => rfl
  | cons a t ih =>
    rw [List.cons_append, List.takeWhile_cons, if_pos (h a (List.mem_cons_self a t))]
    rw [ih fun e he => h e (List.mem_cons_of_mem a he), List.cons_append]

/-- Taking while a predicate holds stops immediately on a list that nowhere
satisfies it. -/
theorem takeWhile_eq_nil_of_forall {α : Type} (p : α → Bool) (l : List α)
    (h : ∀ e ∈ l, p e = false) : l.takeWhile p = [] := by
  cases l with
  | nil => rfl
  | cons a t =>
    rw [List.takeWhile_cons]
    simp [h a (List.mem_cons_self a t)]

/-- The five wire-format field classifiers are unchanged by replacing a full
field name with its short rename. -/
theorem shortAlias_keys (k : String) :
    isBalanceKey (shortAlias k) = isBalanceKey k ∧
    isNonceKey (shortAlias k) = isNonceKey k ∧
    isCodeHashKey (shortAlias k) = isCodeHashKey k ∧
    isInfoKey (shortAlias k) = isInfoKey k ∧
    isStorageKey (shortAlias k) = isStorageKey k := by
  simp only [shortAlias, isBalanceKey, isNonceKey, isCodeHashKey, isInfoKey, isStorageKey]
  split_ifs <;> simp_all

/-- Field-visitor invariance of the info decoder under short renames. -/
theorem decodeInfoFields_shortAlias (l : List (String × MVal)) :
    ∀ b n c, decodeInfoFields (l.map (fun p => (shortAlias p.1, p.2))) b n c =
      decodeInfoFields l b n c := by
  induction l with
  | nil => intro b n c; rfl
  | cons p rest ih =>
    intro b n c
    obtain ⟨k, v⟩ := p
    obtain ⟨h1, h2, h3, _, _⟩ := shortAlias_keys k
    simp only [List.map_cons, decodeInfoFields, h1, h2, h3]
    by_cases hb : isBalanceKey k
    · simp only [hb, if_true]
      cases b <;> cases v <;> simp [ih]
    · simp only [hb, if_false]
      by_cases hn : isNonceKey k
      · simp only [hn, if_true]
        cases n <;> cases v <;> simp [ih]
      · simp only [hn, if_false]
        by_cases hc : isCodeHashKey k
        · simp only [hc, if_true]
          cases c <;> cases v <;> simp [ih]
        · simp only [hc, if_false, ih]

/-- Field-visitor invariance of the account decoder under short renames. -/
theorem decodeAccountFields_shortAlias (l : List (String × MVal)) :
    ∀ i s, decodeAccountFields (l.map (fun p => (shortAlias p.1, p.2))) i s =
      decodeAccountFields l i s := by
  induction l with
  | nil => intro i s; rfl
  | cons p rest ih =>
    intro i s
    obtain ⟨k, v⟩ := p
    obtain ⟨_, _, _, h4, h5⟩ := shortAlias_keys k
    simp only [List.map_cons, decodeAccountFields, h4, h5]
    by_cases hi : isInfoKey k
    · simp only [hi, if_true]
      cases i with
      | some _ => simp
      | none =>
        cases v with
        | int _ => simp
        | arr _ => simp
        | map sub =>
          cases hdec : decodeDbAccountInfo sub <;> simp [hdec, ih]
    · simp only [hi, if_false]
      by_cases hs : isStorageKey k
      · simp only [hs, if_true]
        cases s <;> cases v <;> simp [ih]
      · simp only [hs, if_false, ih]

/-- Filtering the zero-valued storage entries is idempotent. -/
theorem filter_nonzero_idem (s : List (U256 × U256)) :
    (s.filter (fun kv => kv.2 != 0)).filter (fun kv => kv.2 != 0) =
      s.filter (fun kv => kv.2 != 0) := by
  induction s with
  | nil => rfl
  | cons p rest ih =>
    by_cases hp : (p.2 != 0) = true <;> simp [List.filter_cons, hp, ih]

/-- Inserting a fresh key into a one-entry map never returns the map unchanged. -/
theorem btreeInsert_pair_ne (k k0 : B256) (v w : U256) (hk : k ≠ k0) :
    btreeInsert [(k, v)] k0 w ≠ [(k, v)] := by
  simp only [btreeInsert]
  split_ifs with h1 h2
  · simp
  · exact absurd h2 (Ne.symm hk)
  · simp

/-- The duplicate-group scan on a table decomposed around the contiguous run of
rows for an address returns exactly that run's entries. -/
theorem dupGroup_decomposition (addr : Address) (pre grp post : List StorageRow)
    (hpre : ∀ e ∈ pre, e.1 ≠ addr) (hgrp : ∀ e ∈ grp, e.1 = addr)
    (hpost : ∀ e ∈ post, e.1 ≠ addr) :
    dupGroup (pre ++ grp ++ post) addr = grp.map (fun e => (e.2.1, e.2.2)) := by
  unfold dupGroup
  rw [List.append_assoc,
    dropWhile_append_of_forall _ pre _ (fun e he => by simp [hpre e he])]
  cases grp with
  | nil =>
    rw [List.nil_append,
      dropWhile_eq_nil_of_forall _ post (fun e he => by simp [hpost e he])]
    rfl
  | cons g gs =>
    have hg1 : g.1 = addr := hgrp g (List.mem_cons_self g gs)
    rw [List.cons_append, List.dropWhile_cons, if_neg (by simp [hg1])]
    rw [List.takeWhile_cons, if_pos (by simp [hg1])]
    rw [takeWhile_append_of_forall _ gs post
      (fun e he => by simp [hgrp e (List.mem_cons_of_mem g he)])]
    rw [takeWhile_eq_nil_of_forall _ post (fun e he => by simp [hpost e he])]
    simp

/-- Membership after inserting a fresh key into the sorted map. -/
theorem btreeInsert_mem_of_fresh (m : List (B256 × U256)) (k : B256) (v : U256)
    (hk : k ∉ m.map Prod.fst) (x : B256 × U256) :
    x ∈ btreeInsert m k v ↔ x = (k, v) ∨ x ∈ m := by
  induction m with
  | nil => simp [btreeInsert]
  | cons p rest ih =>
    obtain ⟨p1, p2⟩ := p
    simp only [List.map_cons, List.mem_cons] at hk
    push_neg at hk
    simp only [btreeInsert]
    split_ifs with h1 h2
    · simp only [List.mem_cons]
    · exact absurd h2 hk.1
    · simp only [List.mem_cons, ih hk.2]
      tauto

/-- The keys present after a sorted-map insert. -/
theorem btreeInsert_keys_mem (m : List (B256 × U256)) (k : B256) (v : U256)
    (q : B256) :
    q ∈ (btreeInsert m k v).map Prod.fst ↔ q = k ∨ q ∈ m.map Prod.fst := by
  induction m with
  | nil => simp [btreeInsert]
  | cons p rest ih =>
    obtain ⟨p1, p2⟩ := p
    simp only [btreeInsert]
    split_ifs with h1 h2
    · simp only [List.map_cons, List.mem_cons]
    · subst h2
      simp only [List.map_cons, List.mem_cons]
      tauto
    · simp only [List.map_cons, List.mem_cons, ih]
      tauto

/-- A sorted-map insert of a fresh key preserves distinctness of the keys. -/
theorem btreeInsert_nodup_of_fresh (m : List (B256 × U256)) (k : B256) (v : U256)
    (hk : k ∉ m.map Prod.fst) (hm : (m.map Prod.fst).Nodup) :
    ((btreeInsert m k v).map Prod.fst).Nodup := by
  induction m with
  | nil => simp [btreeInsert]
  | cons p rest ih =>
    obtain ⟨p1, p2⟩ := p
    simp only [List.map_cons, List.mem_cons] at hk
    push_neg at hk
    simp only [List.map_cons, List.nodup_cons] at hm
    simp only [btreeInsert]
    split_ifs with h1 h2
    · simp only [List.map_cons, List.nodup_cons, List.mem_cons]
      exact ⟨by push_neg; exact hk, hm⟩
    · exact absurd h2 hk.1
    · simp only [List.map_cons, List.nodup_cons]
      refine ⟨?_, ih hk.2 hm.2⟩
      rw [btreeInsert_keys_mem]
      rintro (h | h)
      · exact hk.1 h.symm
      · exact hm.1 h

/-- Folding sorted-map inserts over a sequence with distinct keys, starting from
a map whose keys are distinct and disjoint from the sequence, collects exactly
the initial bindings and the sequence's bindings. -/
theorem foldl_btreeInsert_mem (l : List (B256 × U256)) :
    ∀ m : List (B256 × U256), (m.map Prod.fst).Nodup → (l.map Prod.fst).Nodup →
      (∀ q, q ∈ m.map Prod.fst → q ∉ l.map Prod.fst) →
      ∀ x, (x ∈ l.foldl (fun acc q => btreeInsert acc q.1 q.2) m ↔ x ∈ m ∨ x ∈ l) := by
  induction l with
  | nil =>
    intro m _ _ _ x
    simp
  | cons p rest ih =>
    intro m hm hl hdisj x
    have hfresh : p.1 ∉ m.map Prod.fst := by
      intro hin
      exact hdisj p.1 hin (by simp)
    simp only [List.map_cons, List.nodup_cons] at hl
    rw [List.foldl_cons,
      ih (btreeInsert m p.1 p.2) (btreeInsert_nodup_of_fresh m p.1 p.2 hfresh hm) hl.2
        (fun q hq hqr => by
          rcases (btreeInsert_keys_mem m p.1 p.2 q).mp hq with h | h
          · exact hl.1 (h ▸ hqr)
          · exact hdisj q h (List.mem_cons_of_mem _ hqr)) x,
      btreeInsert_mem_of_fresh m p.1 p.2 hfresh x]
    simp only [List.mem_cons]
    constructor
    · rintro ((h | h) | h)
      · exact Or.inr (Or.inl (by rw [h]))
      · exact Or.inl h
      · exact Or.inr (Or.inr h)
    · rintro (h | h | h)
      · exact Or.inl (Or.inr h)
      · exact Or.inl (Or.inl (by rw [h]))
      · exact Or.inr h

/-- Collecting a sequence with distinct keys into the sorted map preserves
exactly its bindings. -/
theorem btreeOfList_mem (l : List (B256 × U256)) (hl : (l.map Prod.fst).Nodup)
    (x : B256 × U256) : x ∈ btreeOfList l ↔ x ∈ l := by
  rw [btreeOfList, foldl_btreeInsert_mem l [] (by simp) hl (by simp) x]
  simp

/-!  Claim theorems. -/

/-- C8: `original_bytes()` is a pure projection on the bytecode variant type.
Wrapping the same underlying bytes in `LegacyRaw` versus `LegacyAnalyzed`
(whose stored bytecode truncated to its original length is those bytes) yields
equal canonical bytes; for the `Eip7702` variant the canonical bytes are the raw
designation bytes unchanged; and re-projecting the `LegacyRaw` wrapping of any
projection result is the identity (idempotence). -/
theorem original_bytes_pure_projection :
    (∀ e : Eip7702Bytecode, (Bytecode.eip7702 e).original_bytes = e.raw) ∧
    (∀ (a : LegacyAnalyzedBytecode) (b : List Nat),
      a.bytecode.take a.original_len = b →
      (Bytecode.legacyAnalyzed a).original_bytes =
        (Bytecode.legacyRaw b).original_bytes) ∧
    (∀ bc : Bytecode,
      (Bytecode.legacyRaw bc.original_bytes).original_bytes = bc.original_bytes) := by
  refine ⟨fun e => rfl, fun a b hb => ?_, fun bc => rfl⟩
  simpa [Bytecode.original_bytes, LegacyAnalyzedBytecode.original_bytes] using hb

/-- Witness for C8: the bytes 0x60 0x00 wrapped as raw legacy bytecode and as
analyzed legacy bytecode (with a padding byte) project to the same canonical
bytes. -/
theorem original_bytes_pure_projection_witness :
    (Bytecode.legacyAnalyzed ⟨[0x60, 0x00, 0x00], 2, [true, false, false]⟩).original_bytes =
      (Bytecode.legacyRaw [0x60, 0x00]).original_bytes :=
  original_bytes_pure_projection.2.1 ⟨[0x60, 0x00, 0x00], 2, [true, false, false]⟩
    [0x60, 0x00] rfl

/-- C9: the account-record decoders accept each field under its short alias or
its full name with equal result (replacing full names by the short renames
leaves the decode result unchanged), and a record omitting `balance`, `nonce`
and `code_hash` decodes without error to zero balance, zero nonce and the
empty-code hash, with `storage` defaulting to the empty list when absent. -/
theorem dbaccount_decode_aliases_defaults :
    (∀ l : List (String × MVal),
      decodeDbAccountInfo (l.map (fun p => (shortAlias p.1, p.2))) =
        decodeDbAccountInfo l) ∧
    (∀ l : List (String × MVal),
      decodeDbAccount (l.map (fun p => (shortAlias p.1, p.2))) = decodeDbAccount l) ∧
    decodeDbAccountInfo [] = .ok { balance := 0, nonce := 0, code_hash := KECCAK_EMPTY } ∧
    decodeDbAccount [] =
      .ok { info := { balance := 0, nonce := 0, code_hash := KECCAK_EMPTY }, storage := [] } ∧
    (∀ st, decodeDbAccount [("s", MVal.arr st)] =
      .ok { info := { balance := 0, nonce := 0, code_hash := KECCAK_EMPTY }, storage := st }) ∧
    (∀ b n c,
      decodeDbAccountInfo [("balance", .int b), ("nonce", .int n), ("code_hash", .int c)] =
        .ok { balance := b, nonce := n, code_hash := c } ∧
      decodeDbAccountInfo [("b", .int b), ("n", .int n), ("c", .int c)] =
        .ok { balance := b, nonce := n, code_hash := c }) := by
  refine ⟨fun l => decodeInfoFields_shortAlias l none none none,
          fun l => decodeAccountFields_shortAlias l none none,
          rfl, rfl, fun st => rfl, fun b n c => ⟨rfl, rfl⟩⟩

/-- C3: for an address whose store lookup reports no account (absence, not an
error), the account step is clean if and only if the snapshot record is exactly
the all-defaults empty account: zero balance, zero nonce, the empty-code hash,
and empty storage; any other field value aborts with a divergence. -/
theorem absent_account_defaults (db : DbProvider) (state : StateProvider)
    (address : Address) (account : DbAccount)
    (habs : state.basic_account address = .ok none) :
    stepAccount db state address account = .ok .okStep ↔
      (account.info.balance = 0 ∧ account.info.nonce = 0 ∧
       account.info.code_hash = KECCAK_EMPTY ∧ account.storage = []) := by
  simp only [stepAccount, habs]
  split_ifs with h1 h2 h3 h4 <;> simp_all [List.length_eq_zero]

/-- Witness for C3: with an absent store account, the all-defaults record is
clean and a record with a nonzero nonce diverges. -/
theorem absent_account_defaults_witness :
    stepAccount ⟨[], true⟩ (constState (.ok none) (.ok none) (.ok none)) 7
      ⟨DbAccountInfo.zero, []⟩ = .ok .okStep ∧
    ¬ stepAccount ⟨[], true⟩ (constState (.ok none) (.ok none) (.ok none)) 7
      ⟨⟨0, 3, KECCAK_EMPTY⟩, []⟩ = .ok .okStep := by
  constructor
  · exact (absent_account_defaults ⟨[], true⟩ (constState (.ok none) (.ok none) (.ok none))
      7 ⟨DbAccountInfo.zero, []⟩ rfl).mpr (by refine ⟨rfl, rfl, rfl, rfl⟩)
  · intro hok
    have h := (absent_account_defaults ⟨[], true⟩
      (constState (.ok none) (.ok none) (.ok none)) 7 ⟨⟨0, 3, KECCAK_EMPTY⟩, []⟩ rfl).mp hok
    exact absurd h.2.1 (by decide)

/-- C1: the diff engine filters out snapshot storage entries whose value is zero
before comparing against the store's storage map: for any account present in the
store, the account step's outcome is unchanged when the zero-valued entries are
removed from the snapshot storage; and in particular a snapshot storage
containing a zero-valued slot and a nonzero slot, compared against a store whose
index holds only the nonzero slot, is judged equal and produces no divergence. -/
theorem storage_zero_slot_filtering :
    (∀ (db : DbProvider) (state : StateProvider) (address : Address)
       (info : DbAccountInfo) (s : List (U256 × U256)) (a : Account),
       state.basic_account address = .ok (some a) →
       stepAccount db state address ⟨info, s⟩ =
         stepAccount db state address ⟨info, s.filter (fun kv => kv.2 != 0)⟩) ∧
    (∀ (address : Address) (k1 k2 v balance : U256) (nonce : Nat) (ch : B256),
       v ≠ 0 →
       stepAccount ⟨[(address, k2, v)], true⟩
         (constState (.ok (some ⟨nonce, balance, some ch⟩)) (.ok none) (.ok none))
         address ⟨⟨balance, nonce, ch⟩, [(k1, 0), (k2, v)]⟩ = .ok .okStep) := by
  constructor
  · intro db state address info s a hpres
    simp only [stepAccount, hpres, filter_nonzero_idem]
  · intro address k1 k2 v balance nonce ch hv
    simp [stepAccount, constState, extract_contract_state, Account.get_bytecode_hash,
      dupGroup, btreeOfList, btreeInsert, List.filter_cons, hv]

/-- Witness for C1: the filtering invariance at a concrete present account, and
the concrete scenario with snapshot storage holding slot 1 at zero and slot 2 at
five against a store index holding only slot 2 at five. -/
theorem storage_zero_slot_filtering_witness :
    stepAccount ⟨[(9, 2, 5)], true⟩
      (constState (.ok (some ⟨1, 100, some KECCAK_EMPTY⟩)) (.ok none) (.ok none)) 9
      ⟨⟨100, 1, KECCAK_EMPTY⟩, [(1, 0), (2, 5)]⟩ = .ok .okStep ∧
    stepAccount ⟨[(9, 2, 5)], true⟩
      (constState (.ok (some ⟨1, 100, some KECCAK_EMPTY⟩)) (.ok none) (.ok none)) 9
      ⟨⟨100, 1, KECCAK_EMPTY⟩, [(1, 0), (2, 5)]⟩ =
      stepAccount ⟨[(9, 2, 5)], true⟩
        (constState (.ok (some ⟨1, 100, some KECCAK_EMPTY⟩)) (.ok none) (.ok none)) 9
        ⟨⟨100, 1, KECCAK_EMPTY⟩, ([(1, 0), (2, 5)] : List (U256 × U256)).filter
          (fun kv => kv.2 != 0)⟩ :=
  ⟨storage_zero_slot_filtering.2 9 1 2 5 100 1 KECCAK_EMPTY (by decide),
   storage_zero_slot_filtering.1 ⟨[(9, 2, 5)], true⟩
     (constState (.ok (some ⟨1, 100, some KECCAK_EMPTY⟩)) (.ok none) (.ok none)) 9
     ⟨100, 1, KECCAK_EMPTY⟩ [(1, 0), (2, 5)] ⟨1, 100, some KECCAK_EMPTY⟩ rfl⟩

/-- C2 counterexample: the snapshot records an account with storage slot 1 at 7
while the store's extracted storage map for the address contains slot 1 at 7 and
an extra zero-valued slot 2; the comparison is not Clean — the account step
aborts with a storage mismatch, because the engine filters zero-valued entries
only on the snapshot side and compares the maps strictly. -/
theorem store_zero_slot_counterexample :
    stepAccount ⟨[(7, 1, 7), (7, 2, 0)], true⟩
      (constState (.ok (some ⟨1, 100, some KECCAK_EMPTY⟩)) (.ok none) (.ok none))
      7 ⟨⟨100, 1, KECCAK_EMPTY⟩, [(1, 7)]⟩ = .error .storageMismatch := by decide

/-- C2 (amended): with a snapshot account holding a single nonzero storage slot,
the comparison is Clean when the store's index does not materialize any
zero-valued slot for the address (the extracted map holds exactly that slot);
but when the store's extracted map additionally materializes a zero-valued slot
under a different key, the account step reports a storage divergence, since only
snapshot-side zero-valued entries are filtered before the comparison. -/
theorem store_zero_slot_not_filtered (address : Address) (balance : U256) (nonce : Nat)
    (ch k k0 : B256) (v : U256) (hv : v ≠ 0) (hk : k ≠ k0) :
    stepAccount ⟨[(address, k, v)], true⟩
      (constState (.ok (some ⟨nonce, balance, some ch⟩)) (.ok none) (.ok none))
      address ⟨⟨balance, nonce, ch⟩, [(k, v)]⟩ = .ok .okStep ∧
    stepAccount ⟨[(address, k, v), (address, k0, 0)], true⟩
      (constState (.ok (some ⟨nonce, balance, some ch⟩)) (.ok none) (.ok none))
      address ⟨⟨balance, nonce, ch⟩, [(k, v)]⟩ = .error .storageMismatch := by
  have hone : btreeInsert ([] : List (B256 × U256)) k v = [(k, v)] := rfl
  have hne := btreeInsert_pair_ne k k0 v 0 hk
  constructor
  · simp [stepAccount, constState, extract_contract_state, Account.get_bytecode_hash,
      dupGroup, btreeOfList, List.filter_cons, hv, hone]
  · simp [stepAccount, constState, extract_contract_state, Account.get_bytecode_hash,
      dupGroup, btreeOfList, List.filter_cons, hv, hone, hne]

/-- Witness for C2 (amended): the concrete scenario with slot 1 at 7 and the
store materializing slot 2 at zero. -/
theorem store_zero_slot_not_filtered_witness :
    stepAccount ⟨[(7, 1, 7)], true⟩
      (constState (.ok (some ⟨1, 100, some KECCAK_EMPTY⟩)) (.ok none) (.ok none))
      7 ⟨⟨100, 1, KECCAK_EMPTY⟩, [(1, 7)]⟩ = .ok .okStep ∧
    stepAccount ⟨[(7, 1, 7), (7, 2, 0)], true⟩
      (constState (.ok (some ⟨1, 100, some KECCAK_EMPTY⟩)) (.ok none) (.ok none))
      7 ⟨⟨100, 1, KECCAK_EMPTY⟩, [(1, 7)]⟩ = .error .storageMismatch :=
  store_zero_slot_not_filtered 7 100 1 KECCAK_EMPTY 1 2 7 (by decide) (by decide)

/-- C5: the bytecode sweep's check for one contract entry, given a successful
store lookup.  For the empty-code hash, absence and empty stored bytecode are
accepted and anything else diverges; for any other hash with stored bytecode,
the check passes exactly when the canonical bytes agree; for the all-zero
sentinel with no stored bytecode, the absence is tolerated and merely noted; for
any other hash with no stored bytecode, the run aborts. -/
theorem bytecode_check_cases (state : StateProvider) (code_hash : B256)
    (code : Bytecode) (r : Option Bytecode)
    (hr : state.bytecode_by_hash code_hash = .ok r) :
    (code_hash = KECCAK_EMPTY →
      (stepContract state code_hash code = .ok .okContract ↔
        (r = none ∨ ∃ c, r = some c ∧ c.is_empty = true))) ∧
    (code_hash ≠ KECCAK_EMPTY → ∀ c, r = some c →
      (stepContract state code_hash code = .ok .okContract ↔
        c.original_bytes = code.original_bytes)) ∧
    (code_hash = B256_ZERO → r = none →
      stepContract state code_hash code = .ok .notedZeroHash) ∧
    (code_hash ≠ KECCAK_EMPTY → code_hash ≠ B256_ZERO → r = none →
      stepContract state code_hash code = .error .codeNotFound) := by
  refine ⟨?_, ?_, ?_, ?_⟩
  · intro hke
    subst hke
    simp only [stepContract, if_pos rfl, hr]
    cases r with
    | none => simp
    | some c => by_cases hc : c.is_empty = true <;> simp [hc]
  · intro hne c hc
    subst hc
    simp only [stepContract, if_neg hne, hr]
    by_cases hb : c.original_bytes = code.original_bytes <;> simp [hb]
  · intro hz hnone
    subst hz
    subst hnone
    have hne : B256_ZERO ≠ KECCAK_EMPTY := by decide
    simp [stepContract, hne, hr]
  · intro hne hnz hnone
    subst hnone
    simp [stepContract, hne, hr, hnz]

/-- Witness for C5: the four cases at concrete inputs — empty-code hash with an
absent stored bytecode is clean, matching canonical bytes under an ordinary hash
are clean, the all-zero sentinel with absent bytecode is merely noted, and an
ordinary hash with absent bytecode aborts. -/
theorem bytecode_check_cases_witness :
    stepContract (constState (.ok none) (.ok none) (.ok none)) KECCAK_EMPTY
      (Bytecode.legacyRaw []) = .ok .okContract ∧
    stepContract (constState (.ok none) (.ok none) (.ok (some (Bytecode.legacyRaw [1]))))
      5 (Bytecode.legacyRaw [1]) = .ok .okContract ∧
    stepContract (constState (.ok none) (.ok none) (.ok none)) B256_ZERO
      (Bytecode.legacyRaw [1]) = .ok .notedZeroHash ∧
    stepContract (constState (.ok none) (.ok none) (.ok none)) 5
      (Bytecode.legacyRaw [1]) = .error .codeNotFound := by
  refine ⟨?_, ?_, ?_, ?_⟩
  · exact ((bytecode_check_cases (constState (.ok none) (.ok none) (.ok none))
      KECCAK_EMPTY (Bytecode.legacyRaw []) none rfl).1 rfl).mpr (Or.inl rfl)
  · exact ((bytecode_check_cases
      (constState (.ok none) (.ok none) (.ok (some (Bytecode.legacyRaw [1]))))
      5 (Bytecode.legacyRaw [1]) (some (Bytecode.legacyRaw [1])) rfl).2.1
      (by decide) (Bytecode.legacyRaw [1]) rfl).mpr rfl
  · exact (bytecode_check_cases (constState (.ok none) (.ok none) (.ok none))
      B256_ZERO (Bytecode.legacyRaw [1]) none rfl).2.2.1 rfl rfl
  · exact (bytecode_check_cases (constState (.ok none) (.ok none) (.ok none))
      5 (Bytecode.legacyRaw [1]) none rfl).2.2.2 (by decide) (by decide) rfl

/-- Keys present after a hash-map insert: the inserted key plus the old keys. -/
theorem hashMapInsert_keys_mem (m : List (B256 × Bytecode)) (k : B256) (v : Bytecode)
    (q : B256) :
    q ∈ (hashMapInsert m k v).map Prod.fst ↔ q = k ∨ q ∈ m.map Prod.fst := by
  induction m with
  | nil => simp [hashMapInsert]
  | cons p rest ih =>
    simp only [hashMapInsert]
    split_ifs with hp
    · subst hp
      simp only [List.map_cons, List.mem_cons]
      tauto
    · simp only [List.map_cons, List.mem_cons, ih]
      tauto

/-- A hash-map insert preserves distinctness of the keys. -/
theorem hashMapInsert_nodup (m : List (B256 × Bytecode)) (k : B256) (v : Bytecode)
    (hm : (m.map Prod.fst).Nodup) : ((hashMapInsert m k v).map Prod.fst).Nodup := by
  induction m with
  | nil => simp [hashMapInsert]
  | cons p rest ih =>
    simp only [List.map_cons, List.nodup_cons] at hm
    simp only [hashMapInsert]
    split_ifs with hp
    · subst hp
      simp only [List.map_cons, List.nodup_cons]
      exact ⟨hm.1, hm.2⟩
    · simp only [List.map_cons, List.nodup_cons]
      refine ⟨?_, ih hm.2⟩
      rw [hashMapInsert_keys_mem]
      rintro (h | h)
      · exact hp h
      · exact hm.1 h

/-- Membership after a hash-map insert on a map with distinct keys: the new
binding, or an old binding for a different key. -/
theorem hashMapInsert_mem (m : List (B256 × Bytecode)) (k : B256) (v : Bytecode)
    (hm : (m.map Prod.fst).Nodup) (q : B256) (c : Bytecode) :
    (q, c) ∈ hashMapInsert m k v ↔ (q = k ∧ c = v) ∨ ((q, c) ∈ m ∧ q ≠ k) := by
  induction m with
  | nil => simp [hashMapInsert]
  | cons p rest ih =>
    simp only [List.map_cons, List.nodup_cons] at hm
    have hqrest : (q, c) ∈ rest → q ≠ p.1 := by
      intro hmem hqe
      exact hm.1 (hqe ▸ List.mem_map_of_mem Prod.fst hmem)
    simp only [hashMapInsert]
    split_ifs with hp
    · subst hp
      simp only [List.mem_cons, Prod.mk.injEq]
      constructor
      · rintro (⟨h1, h2⟩ | h3)
        · exact Or.inl ⟨h1, h2⟩
        · exact Or.inr ⟨Or.inr h3, hqrest h3⟩
      · rintro (⟨h1, h2⟩ | ⟨h3 | h3, hne⟩)
        · exact Or.inl ⟨h1, h2⟩
        · exact absurd (congrArg Prod.fst h3) hne
        · exact Or.inr h3
    · simp only [List.mem_cons, ih hm.2, Prod.mk.injEq]
      constructor
      · rintro (h3 | ⟨h1, h2⟩ | ⟨h3, hne⟩)
        · refine Or.inr ⟨Or.inl h3, ?_⟩
          have hq1 : q = p.1 := congrArg Prod.fst h3
          exact fun he => hp (hq1 ▸ he)
        · exact Or.inl ⟨h1, h2⟩
        · exact Or.inr ⟨Or.inr h3, hne⟩
      · rintro (⟨h1, h2⟩ | ⟨h3 | h3, hne⟩)
        · exact Or.inr (Or.inl ⟨h1, h2⟩)
        · exact Or.inl h3
        · exact Or.inr (Or.inr ⟨h3, hne⟩)

/-- Folding hash-map inserts over a sequence: a binding is present exactly when
it is the last occurrence of its key in the sequence, or a binding of the
initial map for a key not occurring at all. -/
theorem foldl_hashMapInsert_mem (l : List (B256 × Bytecode)) :
    ∀ (m : List (B256 × Bytecode)), (m.map Prod.fst).Nodup →
      ∀ (q : B256) (c : Bytecode),
      ((q, c) ∈ l.foldl (fun acc p => hashMapInsert acc p.1 p.2) m ↔
        (lastOccurrence l q = some c ∨ (lastOccurrence l q = none ∧ (q, c) ∈ m))) := by
  induction l with
  | nil =>
    intro m hm q c
    simp [lastOccurrence]
  | cons p rest ih =>
    intro m hm q c
    rw [List.foldl_cons, ih (hashMapInsert m p.1 p.2) (hashMapInsert_nodup m p.1 p.2 hm) q c,
      hashMapInsert_mem m p.1 p.2 hm q c]
    cases hl : lastOccurrence rest q with
    | some w => simp [lastOccurrence, hl]
    | none =>
      by_cases hq : p.1 = q
      · simp [lastOccurrence, hl, hq, eq_comm]
      · have hq2 : ¬ q = p.1 := fun h => hq h.symm
        simp [lastOccurrence, hl, hq, hq2]

/-- Folding hash-map inserts preserves distinctness of the keys. -/
theorem foldl_hashMapInsert_nodup (l : List (B256 × Bytecode)) :
    ∀ m, (m.map Prod.fst).Nodup →
      ((l.foldl (fun acc p => hashMapInsert acc p.1 p.2) m).map Prod.fst).Nodup := by
  induction l with
  | nil =>
    intro m hm
    simpa using hm
  | cons p rest ih =>
    intro m hm
    rw [List.foldl_cons]
    exact ih (hashMapInsert m p.1 p.2) (hashMapInsert_nodup m p.1 p.2 hm)

/-- C6: before the bytecode sweep the snapshot's contracts sequence is
deduplicated by code-hash with last-write-wins: the collected map holds a
binding for a hash exactly when it is the bytecode of that hash's last
occurrence in the sequence, and its keys are distinct.  The bytecode sweep of
the diff run then iterates exactly this collected map. -/
theorem contracts_dedup_last_write_wins (l : List (B256 × Bytecode)) :
    (∀ (q : B256) (c : Bytecode),
      ((q, c) ∈ hashMapCollect l ↔ lastOccurrence l q = some c)) ∧
    ((hashMapCollect l).map Prod.fst).Nodup := by
  constructor
  · intro q c
    rw [hashMapCollect, foldl_hashMapInsert_mem l [] (by simp) q c]
    simp
  · exact foldl_hashMapInsert_nodup l [] (by simp)

/-- C4: the extractor returns `ok none` exactly when the basic-account lookup
reports no account; otherwise, when its auxiliary queries succeed, it returns
the contract state whose storage map is built from the duplicate-group scan;
the scan on a table holding the address's rows contiguously yields exactly those
rows' entries; and collecting entries with distinct keys into the ordered map
keeps exactly those entries. -/
theorem extract_contract_state_characterization
    (db : DbProvider) (state : StateProvider) (addr : Address) :
    (extract_contract_state db state addr = .ok none ↔
      state.basic_account addr = .ok none) ∧
    (∀ (a : Account) (bc : Option Bytecode),
      state.basic_account addr = .ok (some a) →
      state.account_code addr = .ok bc → db.scanOk = true →
      extract_contract_state db state addr =
        .ok (some { address := addr, account := a, bytecode := bc,
                    storage := btreeOfList (dupGroup db.storageTable addr) })) ∧
    (∀ pre grp post, db.storageTable = pre ++ grp ++ post →
      (∀ e ∈ pre, e.1 ≠ addr) → (∀ e ∈ grp, e.1 = addr) →
      (∀ e ∈ post, e.1 ≠ addr) →
      dupGroup db.storageTable addr = grp.map (fun e => (e.2.1, e.2.2))) ∧
    (∀ l : List (B256 × U256), (l.map Prod.fst).Nodup →
      ∀ x, x ∈ btreeOfList l ↔ x ∈ l) := by
  refine ⟨?_, ?_, ?_, fun l hl x => btreeOfList_mem l hl x⟩
  · cases hba : state.basic_account addr with
    | error e => simp [extract_contract_state, hba]
    | ok oa =>
      cases oa with
      | none => simp [extract_contract_state, hba]
      | some a =>
        simp only [extract_contract_state, hba]
        cases hac : state.account_code addr with
        | error e => simp
        | ok bc => by_cases hs : db.scanOk <;> simp [hs]
  · intro a bc hba hac hs
    simp [extract_contract_state, hba, hac, hs]
  · intro pre grp post ht hpre hgrp hpost
    rw [ht]
    exact dupGroup_decomposition addr pre grp post hpre hgrp hpost

/-- Witness for C4: on the concrete table where address 10 holds three slots
contiguously between the rows of addresses 9 and 11, the extractor returns the
account with exactly those three storage entries. -/
theorem extract_contract_state_characterization_witness :
    extract_contract_state ⟨witTable, true⟩
      (constState (.ok (some ⟨1, 100, some KECCAK_EMPTY⟩)) (.ok none) (.ok none)) 10 =
      .ok (some ⟨10, ⟨1, 100, some KECCAK_EMPTY⟩, none, [(1, 5), (2, 6), (3, 7)]⟩) ∧
    dupGroup witTable 10 = [(1, 5), (2, 6), (3, 7)] ∧
    ((3, 7) ∈ btreeOfList [(1, 5), (2, 6), (3, 7)] ↔
      (3, 7) ∈ ([(1, 5), (2, 6), (3, 7)] : List (B256 × U256))) := by
  have h := extract_contract_state_characterization ⟨witTable, true⟩
    (constState (.ok (some ⟨1, 100, some KECCAK_EMPTY⟩)) (.ok none) (.ok none)) 10
  refine ⟨?_, ?_, ?_⟩
  · have h2 := h.2.1 ⟨1, 100, some KECCAK_EMPTY⟩ none rfl rfl rfl
    rw [h2]
    decide
  · have h3 := h.2.2.1 [(9, 5, 1)] [(10, 1, 5), (10, 2, 6), (10, 3, 7)]
      [(11, 8, 9), (11, 9, 9)] rfl (by decide) (by decide) (by decide)
    rw [h3]
    decide
  · exact h.2.2.2 [(1, 5), (2, 6), (3, 7)] (by decide) (3, 7)

/-- C7: a query error from the basic-account lookup for one address is recorded
and the account sweep continues with the remaining addresses; by contrast, a
query error from the bytecode-by-hash lookup aborts the bytecode sweep before
any remaining entry, and a query error in the extractor's storage range scan
aborts the account sweep. -/
theorem query_error_asymmetry :
    (∀ (db : DbProvider) (state : StateProvider) (addr : Address) (acc : DbAccount)
       (rest : List (Address × DbAccount)),
       state.basic_account addr = .error .fault →
       runAccounts db state ((addr, acc) :: rest) =
         (runAccounts db state rest).map (fun ns => .queryErrorRecorded :: ns)) ∧
    (∀ (state : StateProvider) (hsh : B256) (code : Bytecode)
       (rest : List (B256 × Bytecode)),
       state.bytecode_by_hash hsh = .error .fault →
       runContracts state ((hsh, code) :: rest) = .error .bytecodeLookupError) ∧
    (∀ (db : DbProvider) (state : StateProvider) (addr : Address) (acc : DbAccount)
       (a : Account) (rest : List (Address × DbAccount)),
       state.basic_account addr = .ok (some a) →
       a.balance = acc.info.balance → a.nonce = acc.info.nonce →
       a.get_bytecode_hash = acc.info.code_hash → db.scanOk = false →
       runAccounts db state ((addr, acc) :: rest) = .error .extractQueryError) := by
  refine ⟨?_, ?_, ?_⟩
  · intro db state addr acc rest hba
    have hstep : stepAccount db state addr acc = .ok .queryErrorRecorded := by
      simp [stepAccount, hba]
    rw [runAccounts, hstep]
    cases runAccounts db state rest <;> simp [Except.map]
  · intro state hsh code rest hbh
    have hstep : stepContract state hsh code = .error .bytecodeLookupError := by
      by_cases hke : hsh = KECCAK_EMPTY
      · subst hke
        simp [stepContract, hbh]
      · simp [stepContract, hke, hbh]
    rw [runContracts, hstep]
  · intro db state addr acc a rest hba hbal hnon hch hscan
    have hstep : stepAccount db state addr acc = .error .extractQueryError := by
      cases hac : state.account_code addr with
      | error e =>
        simp [stepAccount, hba, hbal, hnon, hch, extract_contract_state, hac]
      | ok bc =>
        simp [stepAccount, hba, hbal, hnon, hch, extract_contract_state, hac, hscan]
    rw [runAccounts, hstep]

/-- Witness for C7: a concrete run where the account lookup faults and the sweep
continues over the remaining (empty-default) account; a concrete bytecode sweep
aborting on its first faulting lookup; and a concrete account sweep aborting on
a failing range scan. -/
theorem query_error_asymmetry_witness :
    runAccounts ⟨[], true⟩ (constState (.error .fault) (.ok none) (.ok none))
      [(3, ⟨DbAccountInfo.zero, []⟩), (4, ⟨DbAccountInfo.zero, []⟩)] =
      .ok [.queryErrorRecorded, .queryErrorRecorded] ∧
    runContracts (constState (.ok none) (.ok none) (.error .fault))
      [(5, Bytecode.legacyRaw [1]), (6, Bytecode.legacyRaw [2])] =
      .error .bytecodeLookupError ∧
    runAccounts ⟨[], false⟩
      (constState (.ok (some ⟨0, 0, none⟩)) (.ok none) (.ok none))
      [(3, ⟨DbAccountInfo.zero, []⟩), (4, ⟨DbAccountInfo.zero, []⟩)] =
      .error .extractQueryError := by
  refine ⟨?_, ?_, ?_⟩
  · have h1 := query_error_asymmetry.1 ⟨[], true⟩
      (constState (.error .fault) (.ok none) (.ok none)) 3 ⟨DbAccountInfo.zero, []⟩
      [(4, ⟨DbAccountInfo.zero, []⟩)] rfl
    rw [h1]
    decide
  · exact query_error_asymmetry.2.1 (constState (.ok none) (.ok none) (.error .fault))
      5 (Bytecode.legacyRaw [1]) [(6, Bytecode.legacyRaw [2])] rfl
  · exact query_error_asymmetry.2.2 ⟨[], false⟩
      (constState (.ok (some ⟨0, 0, none⟩)) (.ok none) (.ok none)) 3
      ⟨DbAccountInfo.zero, []⟩ ⟨0, 0, none⟩ [(4, ⟨DbAccountInfo.zero, []⟩)]
      rfl rfl rfl (by decide) rfl

/-- C10 counterexample: an immutable state view (every lookup is a pure function
of the key) whose basic-account lookup returns an account but whose bytecode
lookup faults: the diff engine's initial lookup sees the account, yet
`extract_contract_state` returns an error rather than `Ok(Some(..))`, and the
engine's first unwrap aborts the run. -/
theorem extract_after_some_counterexample :
    (constState (.ok (some ⟨0, 0, none⟩)) (.error .fault) (.ok none)).basic_account 5 =
      .ok (some ⟨0, 0, none⟩) ∧
    extract_contract_state ⟨[], true⟩
      (constState (.ok (some ⟨0, 0, none⟩)) (.error .fault) (.ok none)) 5 =
      .error .fault ∧
    stepAccount ⟨[], true⟩
      (constState (.ok (some ⟨0, 0, none⟩)) (.error .fault) (.ok none)) 5
      ⟨DbAccountInfo.zero, []⟩ = .error .extractQueryError := by
  refine ⟨rfl, rfl, by decide⟩

/-- C10 (amended): under an immutable state view, whenever the basic-account
lookup for an address returns an account, `extract_contract_state` never
returns `ok none`, so the engine's second unwrap cannot fail; and when the
extractor's auxiliary queries (the bytecode lookup and the storage range scan)
also succeed, it returns `ok (some ..)`, so neither unwrap fails.  A fault in an
auxiliary query can still abort the run through the first unwrap. -/
theorem extract_after_some_never_none
    (db : DbProvider) (state : StateProvider) (addr : Address) (a : Account)
    (hba : state.basic_account addr = .ok (some a)) :
    extract_contract_state db state addr ≠ .ok none ∧
    (∀ bc, state.account_code addr = .ok bc → db.scanOk = true →
      extract_contract_state db state addr =
        .ok (some { address := addr, account := a, bytecode := bc,
                    storage := btreeOfList (dupGroup db.storageTable addr) })) := by
  constructor
  · simp only [extract_contract_state, hba]
    cases hac : state.account_code addr with
    | error e => simp
    | ok bc => by_cases hs : db.scanOk <;> simp [hs]
  · intro bc hac hs
    simp [extract_contract_state, hba, hac, hs]

/-- Witness for C10 (amended): with an account present and all auxiliary queries
succeeding on an empty storage table, the extractor returns the contract state
with an empty storage map. -/
theorem extract_after_some_never_none_witness :
    extract_contract_state ⟨[], true⟩
      (constState (.ok (some ⟨0, 0, none⟩)) (.ok none) (.ok none)) 5 ≠ .ok none ∧
    extract_contract_state ⟨[], true⟩
      (constState (.ok (some ⟨0, 0, none⟩)) (.ok none) (.ok none)) 5 =
      .ok (some ⟨5, ⟨0, 0, none⟩, none, []⟩) := by
  have h := extract_after_some_never_none ⟨[], true⟩
    (constState (.ok (some ⟨0, 0, none⟩)) (.ok none) (.ok none)) 5 ⟨0, 0, none⟩ rfl
  exact ⟨h.1, h.2 none rfl rfl⟩

end EvmDiff
